import Mathlib

/-!
Verification of the feed-ingestion, deduplication and trend-engine pipeline of
the INDIAN-NEWS-RSS-AGGREGATED-FEED repository, as a shallow embedding in Lean.

The embedding follows the TypeScript sources:
  * `src/services/rssService.ts` — proxy fetch loop, per-item field mapping,
    thumbnail resolution, rss2json fallback;
  * the orchestrator (`loadFeeds` / `processArticles` in the application root) —
    batching, URL-normalised deduplication, per-batch sort and publish;
  * `src/components/TrendsDashboard.tsx` — keyword trends, the recent-hour
    window and the story-clustering pass.

Platform functions (JS `Date` parsing/formatting, `String.prototype` helpers,
`Array.prototype.sort`, the DOM-based `stripHtml`, the browser `URL` class) are
modelled explicitly; each model carries a comment stating the modelling choice.
Machine integers are modelled as `Int`/`Nat` (JS numbers on these code paths are
exact integers well below 2^53, so no overflow modelling is needed).
-/

namespace Pulse

/-! ## JS string primitives -/

/-- ASCII lower-casing of a character; models `String.prototype.toLowerCase`
on the ASCII range (the only range the claims exercise). -/
def asciiLowerChar (c : Char) : Char :=
  if 'A' ≤ c ∧ c ≤ 'Z' then Char.ofNat (c.toNat + 32) else c

/-- ASCII upper-casing of a character; models `String.prototype.toUpperCase`
on the ASCII range. -/
def asciiUpperChar (c : Char) : Char :=
  if 'a' ≤ c ∧ c ≤ 'z' then Char.ofNat (c.toNat - 32) else c

/-- Models `s.toLowerCase()`. -/
def jsToLower (s : String) : String := ⟨s.data.map asciiLowerChar⟩

/-- Models `s.slice(0, n)` (truncation modelled on characters; all strings the
claims exercise are BMP text where code units and characters coincide). -/
def jsSlice (s : String) (n : Nat) : String := ⟨s.data.take n⟩

/-- Models `a || b` on JS strings: `a` if non-empty, else `b`. -/
def jsOr (a b : String) : String := if a ≠ "" then a else b

/-- Models `s.endsWith(t)`. -/
def jsEndsWith (s t : String) : Bool := t.data.isSuffixOf s.data

/-- Models `s.startsWith(t)`. -/
def jsStartsWith (s t : String) : Bool := t.data.isPrefixOf s.data

/-- Substring occurrence test on character lists. -/
def listInfixOf (needle : List Char) : List Char → Bool
  | [] => needle.isEmpty
  | c :: rest => needle.isPrefixOf (c :: rest) || listInfixOf needle rest

/-- Models `s.includes(t)` (substring test). -/
def jsIncludes (s t : String) : Bool := listInfixOf t.data s.data

/-- Models `s.trim()`: strip leading and trailing whitespace. -/
def jsTrim (s : String) : String :=
  ⟨((s.data.dropWhile Char.isWhitespace).reverse.dropWhile
      Char.isWhitespace).reverse⟩

/-- `url.toLowerCase().endsWith('.gif')`, the GIF test used throughout the
thumbnail logic. -/
def isGif (url : String) : Bool := jsEndsWith (jsToLower url) ".gif"

/-! ## JS date model

The pipeline calls `new Date(s)` (parsing), `.getTime()` and `.toISOString()`.
`jsDateParse` models the host's `Date` parser restricted to the UTC ISO-8601
forms `YYYY-MM-DDTHH:MM:SS.mmmZ` and `YYYY-MM-DDTHH:MM:SSZ` (years 1970–9999);
every other string — in particular the empty string and malformed text — is an
Invalid Date, modelled as `none`.  Times are milliseconds since the Unix epoch. -/

/-- Civil date from days since 1970-01-01 (Gregorian), for non-negative day
counts. -/
def civilFromDays (z : Nat) : Nat × Nat × Nat :=
  let z' := z + 719468
  let era := z' / 146097
  let doe := z' % 146097
  let yoe := (doe - doe / 1460 + doe / 36524 - doe / 146096) / 365
  let y := yoe + era * 400
  let doy := doe - (365 * yoe + yoe / 4 - yoe / 100)
  let mp := (5 * doy + 2) / 153
  let d := doy - (153 * mp + 2) / 5 + 1
  let m := if mp < 10 then mp + 3 else mp - 9
  (if m ≤ 2 then y + 1 else y, m, d)

/-- Days since 1970-01-01 of a civil date with `y ≥ 1970` (Gregorian). -/
def daysFromCivil (y m d : Nat) : Nat :=
  let y' := if m ≤ 2 then y - 1 else y
  let era := y' / 400
  let yoe := y' % 400
  let mp := (m + 9) % 12
  let doy := (153 * mp + 2) / 5 + d - 1
  let doe := yoe * 365 + yoe / 4 - yoe / 100 + doy
  era * 146097 + doe - 719468

def isLeapYear (y : Nat) : Bool := (y % 4 = 0 ∧ y % 100 ≠ 0) ∨ y % 400 = 0

def daysInMonth (y m : Nat) : Nat :=
  if m = 2 then (if isLeapYear y then 29 else 28)
  else if m = 4 ∨ m = 6 ∨ m = 9 ∨ m = 11 then 30
  else 31

def digitVal (c : Char) : Nat := c.toNat - 48

def num2 (a b : Char) : Nat := digitVal a * 10 + digitVal b
def num3 (a b c : Char) : Nat := digitVal a * 100 + digitVal b * 10 + digitVal c
def num4 (a b c d : Char) : Nat :=
  digitVal a * 1000 + digitVal b * 100 + digitVal c * 10 + digitVal d

/-- Assemble the epoch-milliseconds of a validated UTC civil timestamp. -/
def epochMs (y mo d h mi s f : Nat) : Option Int :=
  if 1970 ≤ y ∧ y ≤ 9999 ∧ 1 ≤ mo ∧ mo ≤ 12 ∧ 1 ≤ d ∧ d ≤ daysInMonth y mo ∧
      h ≤ 23 ∧ mi ≤ 59 ∧ s ≤ 59 then
    some (((daysFromCivil y mo d) * 86400000 + h * 3600000 + mi * 60000 +
      s * 1000 + f : Nat) : Int)
  else none

/-- Models `new Date(s).getTime()`: `some` milliseconds for the supported ISO
forms, `none` for an Invalid Date (`NaN` time). -/
def jsDateParse (s : String) : Option Int :=
  match s.data with
  | [y1, y2, y3, y4, '-', o1, o2, '-', d1, d2, 'T',
     h1, h2, ':', i1, i2, ':', s1, s2, '.', f1, f2, f3, 'Z'] =>
    if [y1, y2, y3, y4, o1, o2, d1, d2, h1, h2, i1, i2, s1, s2,
        f1, f2, f3].all Char.isDigit then
      epochMs (num4 y1 y2 y3 y4) (num2 o1 o2) (num2 d1 d2) (num2 h1 h2)
        (num2 i1 i2) (num2 s1 s2) (num3 f1 f2 f3)
    else none
  | [y1, y2, y3, y4, '-', o1, o2, '-', d1, d2, 'T',
     h1, h2, ':', i1, i2, ':', s1, s2, 'Z'] =>
    if [y1, y2, y3, y4, o1, o2, d1, d2, h1, h2, i1, i2, s1, s2].all
        Char.isDigit then
      epochMs (num4 y1 y2 y3 y4) (num2 o1 o2) (num2 d1 d2) (num2 h1 h2)
        (num2 i1 i2) (num2 s1 s2) 0
    else none
  | _ => none

def digitChar (n : Nat) : Char := Char.ofNat (48 + n % 10)

def pad2 (n : Nat) : String := ⟨[digitChar (n / 10), digitChar n]⟩
def pad3 (n : Nat) : String := ⟨[digitChar (n / 100), digitChar (n / 10), digitChar n]⟩
def pad4 (n : Nat) : String :=
  ⟨[digitChar (n / 1000), digitChar (n / 100), digitChar (n / 10), digitChar n]⟩

/-- Models `new Date(t).toISOString()` for the non-negative epoch times this
development uses. -/
def toISOString (t : Int) : String :=
  let n := t.toNat
  let days := n / 86400000
  let rem := n % 86400000
  let c := civilFromDays days
  pad4 c.1 ++ "-" ++ pad2 c.2.1 ++ "-" ++ pad2 c.2.2 ++ "T" ++
    pad2 (rem / 3600000) ++ ":" ++ pad2 (rem / 60000 % 60) ++ ":" ++
    pad2 (rem / 1000 % 60) ++ "." ++ pad3 (rem % 1000) ++ "Z"

/-! ## Data model (`src/types.ts`)

Optional TS string fields that the pipeline always assigns (possibly `''`) are
modelled as `String` with `""` for the absent value, matching how the code
observes them (`||`, truthiness). -/

structure Feed where
  id : String
  url : String
  title : String
  color : String
  deriving DecidableEq

structure Article where
  id : String
  feedId : String
  feedTitle : String
  feedColor : String
  title : String
  link : String
  content : String
  contentSnippet : String
  pubDate : String
  isoDate : String
  thumbnail : String
  author : String
  deriving DecidableEq

/-! ## `stripHtml` (src/services/rssService.ts, lines 58–63)

The source strips HTML via the DOM (`innerHTML` then `textContent`).  Modelled
as removal of every `<...>` tag span (a `<` opens a tag that runs to the next
`>`, or to the end of the string if unterminated), without entity decoding —
the aspect the claims test is that no tag survives. -/

def stripHtmlCore : List Char → Bool → List Char
  | [], _ => []
  | c :: rest, inTag =>
    if inTag then stripHtmlCore rest (c ≠ '>')
    else if c = '<' then stripHtmlCore rest true
    else c :: stripHtmlCore rest false

def stripHtml (html : String) : String :=
  if html = "" then "" else ⟨stripHtmlCore html.data false⟩

/-! ## `extractImageFromContent` (src/services/rssService.ts, lines 65–102) -/

/-- State of the `<img src="...">` scanner: seeking the next `<img`, inside an
`<img` tag looking for `src="`, or capturing a quoted `src` value. -/
inductive ImgScanMode where
  | seek
  | tag
  | cap (acc : List Char)

/-- Scan for `<img ... src="..."` occurrences and collect the `src` values.
Models the regex `/<img[^>]+src="([^">]+)"/g` scan: within each `<img` tag span
the quoted `src` attribute value is captured. -/
def imgScan : List Char → ImgScanMode → List String
  | '<' :: 'i' :: 'm' :: 'g' :: rest, .seek => imgScan rest .tag
  | _ :: rest, .seek => imgScan rest .seek
  | '>' :: rest, .tag => imgScan rest .seek
  | 's' :: 'r' :: 'c' :: '=' :: '"' :: rest, .tag => imgScan rest (.cap [])
  | _ :: rest, .tag => imgScan rest .tag
  | '"' :: rest, .cap acc => String.mk acc.reverse :: imgScan rest .seek
  | '>' :: rest, .cap _ => imgScan rest .seek
  | c :: rest, .cap acc => imgScan rest (.cap (c :: acc))
  | [], _ => []

def imgSrcs (content : String) : List String := imgScan content.data .seek

/-- The tracker/ad/pixel/emoji URL patterns rejected by the filter. -/
def badImagePatterns : List String :=
  ["feedburner", "doubleclick", "/ad/", "ads.", "pixel", "emoji", "smilies"]

def isValidImageUrl (url : String) : Bool :=
  !(badImagePatterns.any fun p => jsIncludes (jsToLower url) p)

def extractImageFromContent (content : String) : String :=
  if content = "" then ""
  else
    let validImages := (imgSrcs content).filter isValidImageUrl
    match validImages.find? isGif with
    | some gif => gif
    | none => validImages.headD ""

/-! ## Per-item thumbnail resolution (src/services/rssService.ts, lines 157–209)

The embedding starts from the per-item fields as the DOM queries extract them:
a `RawItem` carries the text fields together with the media-extension content
elements, the (first) enclosure element and the (first) media-extension
thumbnail element.  `type? = none` models a missing `type` attribute
(`getAttribute` returning `null`); `url?` likewise. -/

structure MediaRef where
  type? : Option String
  url? : Option String
  deriving DecidableEq

/-- Fields of one `<item>`/`<entry>` after the dialect-specific extraction of
lines 136–155 (`title`, `link`, `pubDate`, `description`, `content`, `author`)
together with the media elements the thumbnail logic queries. -/
structure RawItem where
  title : String
  link : String
  pubDate : String
  description : String
  content : String
  author : String
  mediaContents : List MediaRef
  enclosure : Option MediaRef
  mediaThumbnail : Option MediaRef
  deriving DecidableEq

/-- Stage 1 (lines 161–172): walk the media-extension `content` elements; every
element with a truthy `url` and an absent or `image*` `type` overwrites the
running thumbnail, and the loop breaks as soon as such a URL is a GIF. -/
def stage1MediaContent : List MediaRef → String → String
  | [], th => th
  | mc :: rest, th =>
    match mc.url? with
    | some url =>
      if url ≠ "" ∧ (mc.type? = none ∨ jsStartsWith (mc.type?.getD "") "image") then
        if isGif url then url else stage1MediaContent rest url
      else stage1MediaContent rest th
    | none => stage1MediaContent rest th

/-- Stage 2 (lines 175–187): an `enclosure` whose `type` starts with `image`
supplies its `url || ''`, overwriting only when no thumbnail is set yet or the
enclosure URL is a GIF. -/
def stage2Enclosure (enc : Option MediaRef) (th : String) : String :=
  if th = "" ∨ ¬ isGif th then
    match enc with
    | some e =>
      match e.type? with
      | some t =>
        if jsStartsWith t "image" then
          let encUrl := e.url?.getD ""
          if th = "" ∨ isGif encUrl then encUrl else th
        else th
      | none => th
    | none => th
  else th

/-- Stage 3 (lines 190–198): the first media-extension `thumbnail` element
supplies its `url || ''`, overwriting only when no thumbnail is set yet or the
found URL is a GIF. -/
def stage3MediaThumbnail (mt : Option MediaRef) (th : String) : String :=
  if th = "" ∨ ¬ isGif th then
    match mt with
    | some e =>
      let thumbUrl := e.url?.getD ""
      if th = "" ∨ isGif thumbUrl then thumbUrl else th
    | none => th
  else th

/-- Stage 4 (lines 201–209): scan the HTML body (`content || description`) for
an acceptable inline image, overwriting only when no thumbnail is set yet or
the scanned image is a GIF. -/
def stage4InlineImg (content description : String) (th : String) : String :=
  if th = "" ∨ ¬ isGif th then
    let contentImage := extractImageFromContent (jsOr content description)
    if contentImage ≠ "" then
      if th = "" ∨ isGif contentImage then contentImage else th
    else th
  else th

def resolveThumbnail (it : RawItem) : String :=
  stage4InlineImg it.content it.description
    (stage3MediaThumbnail it.mediaThumbnail
      (stage2Enclosure it.enclosure
        (stage1MediaContent it.mediaContents "")))

/-! ## Item mapping (src/services/rssService.ts, lines 136–227)

The map callback builds the canonical `Article`.  Its date branch
`pubDate ? new Date(pubDate).toISOString() : new Date().toISOString()` throws a
`RangeError` when `pubDate` is non-empty but unparsable (`toISOString` on an
Invalid Date); the throw aborts the whole `items.map`, so the mapping is
`Option`-valued.  `now` is the current time at parse.  `id` falls back to a
random token when the link is empty; randomness is irrelevant to every claim
and is modelled by the fixed placeholder below. -/

def randomToken : String := "rnd000000"

def mapRawItem (feed : Feed) (now : Int) (it : RawItem) : Option Article :=
  let thumbnail := resolveThumbnail it
  let cleanSnippet := stripHtml (jsOr it.description it.content)
  let iso? : Option String :=
    if it.pubDate ≠ "" then (jsDateParse it.pubDate).map toISOString
    else some (toISOString now)
  iso?.map fun iso =>
    { id := jsOr it.link randomToken
      feedId := feed.id
      feedTitle := feed.title
      feedColor := feed.color
      title := it.title
      link := jsOr it.link ""
      content := jsOr it.content it.description
      contentSnippet :=
        jsSlice cleanSnippet 150 ++
          (if cleanSnippet.length > 150 then "..." else "")
      pubDate := it.pubDate
      isoDate := iso
      thumbnail := thumbnail
      author := it.author }

/-! ## rss2json fallback (src/services/rssService.ts, lines 31–56)

One JSON item as returned by the bridge; absent JSON fields are modelled as
`""`.  The per-item map can throw (`new Date(item.pubDate).toISOString()` on an
unparsable date); any throw is caught by the surrounding `try` and the whole
call returns `[]`. -/

structure JsonItem where
  guid : String
  link : String
  title : String
  content : String
  description : String
  pubDate : String
  thumbnail : String
  author : String
  deriving DecidableEq

def mapJsonItem (feed : Feed) (it : JsonItem) : Option Article :=
  (jsDateParse it.pubDate).map fun t =>
    { id := jsOr it.guid (jsOr it.link randomToken)
      feedId := feed.id
      feedTitle := feed.title
      feedColor := feed.color
      title := it.title
      link := jsOr it.link ""
      content := jsOr it.content it.description
      contentSnippet :=
        jsSlice (stripHtml (jsOr it.description it.content)) 150 ++ "..."
      pubDate := it.pubDate
      isoDate := toISOString t
      thumbnail := jsOr it.thumbnail
        (extractImageFromContent (jsOr it.content it.description))
      author := it.author }

/-- The observable outcome of one rss2json call before the item map: `none`
models a network failure / unparsable JSON, otherwise the `status` check and
the item list. -/
def fetchWithRss2Json (feed : Feed) (resp : Option (Bool × List JsonItem)) :
    List Article :=
  match resp with
  | none => []
  | some (ok, items) =>
    if ok then
      match items.mapM (mapJsonItem feed) with
      | some arts => arts
      | none => []
    else []

/-! ## fetchFeed (src/services/rssService.ts, lines 104–243)

One proxy attempt, observed at the XML-parse boundary: `fail` covers a thrown
fetch, a non-success status, an HTML-looking body and an XML parse error;
`parsed items` is a successfully parsed document with its extracted item list
(`"No items found"` is thrown when that list is empty). -/

inductive ProxyOutcome where
  | fail
  | parsed (items : List RawItem)

def runProxyAttempt (feed : Feed) (now : Int) : ProxyOutcome →
    Option (List Article)
  | .fail => none
  | .parsed items =>
    if items.isEmpty then none
    else items.mapM (mapRawItem feed now)

def firstSuccess : List (Option (List Article)) → Option (List Article)
  | [] => none
  | some r :: _ => some r
  | none :: rest => firstSuccess rest

def fetchFeed (feed : Feed) (now : Int) (outcomes : List ProxyOutcome)
    (resp : Option (Bool × List JsonItem)) : List Article :=
  match firstSuccess (outcomes.map (runProxyAttempt feed now)) with
  | some arts => arts
  | none =>
    let rss2jsonResult := fetchWithRss2Json feed resp
    if rss2jsonResult.length > 0 then rss2jsonResult else []

/-! ## Browser URL model (orchestrator dedupe, src/unnamed/part_000 lines 55–68)

`new URL(link)` / `URLSearchParams` are modelled for plain absolute `http(s)`
URLs: split off the fragment, then the query; parameters split on `&` (empty
segments dropped, as `URLSearchParams` does), named by the text before the
first `=`; serialisation writes every parameter as `name=value`; a URL whose
authority has no path gets the canonical `/`.  Userinfo, ports, percent-encoding
and host case-folding are not modelled — no claim exercises them. -/

def splitFirst (c : Char) : List Char → List Char × Option (List Char)
  | [] => ([], none)
  | x :: xs =>
    if x = c then ([], some xs)
    else
      let r := splitFirst c xs
      (x :: r.1, r.2)

def splitAll (c : Char) : List Char → List (List Char)
  | [] => [[]]
  | x :: xs =>
    let r := splitAll c xs
    if x = c then [] :: r
    else
      match r with
      | [] => [[x]]
      | h :: t => (x :: h) :: t

/-- The query parameters the orchestrator strips before deduplication
(src/unnamed/part_000 line 59). -/
def trackedParams : List String := ["utm_source", "utm_medium", "utm_campaign", "ref", "rss"]

/-- Models lines 58–65: parse the link, delete the tracked parameters,
re-serialise, and drop a trailing slash.  `none` models `new URL` throwing. -/
def urlNormalize (link : String) : Option String :=
  let scheme? : Option (String × List Char) :=
    if jsStartsWith link "http://" then some ("http://", link.data.drop 7)
    else if jsStartsWith link "https://" then some ("https://", link.data.drop 8)
    else none
  match scheme? with
  | none => none
  | some (scheme, rest) =>
    if rest = [] then none
    else
      let hf := splitFirst '#' rest
      let frag := match hf.2 with
        | some f => "#" ++ String.mk f
        | none => ""
      let hq := splitFirst '?' hf.1
      let hostpath := if hq.1.contains '/' then hq.1 else hq.1 ++ ['/']
      let params : List (String × String) :=
        match hq.2 with
        | none => []
        | some q =>
          ((splitAll '&' q).filter (· ≠ [])).map fun p =>
            let nv := splitFirst '=' p
            (String.mk nv.1, String.mk (nv.2.getD []))
      let kept := params.filter fun nv => nv.1 ∉ trackedParams
      let search := String.intercalate "&" (kept.map fun nv => nv.1 ++ "=" ++ nv.2)
      let cleanLink := scheme ++ String.mk hostpath ++
        (if search = "" then "" else "?" ++ search) ++ frag
      some (if jsEndsWith cleanLink "/" then ⟨cleanLink.data.dropLast⟩ else cleanLink)

/-- The dedupe key of lines 55–68: the normalised URL, or — when the link is
empty or unparseable — the trimmed, lower-cased title. -/
def dedupeKey (a : Article) : String :=
  match urlNormalize a.link with
  | some u => u
  | none => jsToLower (jsTrim a.title)

/-- `processArticles` (lines 51–76) with the module-level `seenUrls` set made
explicit: keep an article iff its key is truthy and unseen, recording the key. -/
def processArticles (seen : List String) : List Article → List Article × List String
  | [] => ([], seen)
  | a :: rest =>
    let key := dedupeKey a
    if key ≠ "" ∧ key ∉ seen then
      let r := processArticles (key :: seen) rest
      (a :: r.1, r.2)
    else processArticles seen rest

/-! ## JS `Array.prototype.sort` model

The ECMAScript `SortCompare` coerces a `NaN` comparator result to `+0`, and
`Array.prototype.sort` is required to be stable; the model is the stable
insertion sort (scan the sorted part from its end, moving past exactly the
elements `y` with `comparefn(y, x) > 0`), which realises any consistent
comparator's unique stable order.  `gt y x` models `comparefn(y, x) > 0`. -/

def insRev (gt : α → α → Bool) (x : α) : List α → List α
  | [] => [x]
  | y :: ys => if gt y x then y :: insRev gt x ys else x :: y :: ys

def jsSort (gt : α → α → Bool) (l : List α) : List α :=
  (l.foldl (fun r x => insRev gt x r) []).reverse

/-- The orchestrator's comparator (lines 90–92):
`new Date(b.pubDate).getTime() - new Date(a.pubDate).getTime()`, so
`comparefn(p, q) > 0` iff both pubDates parse and `q`'s is strictly later
(an Invalid Date makes the difference `NaN`, coerced to `0`). -/
def pubDateGt (p q : Article) : Bool :=
  match jsDateParse q.pubDate, jsDateParse p.pubDate with
  | some tq, some tp => tq > tp
  | _, _ => false

/-- One iteration of the batch loop of `loadFeeds` (lines 79–105): dedupe the
batch against the persistent seen-set, append, sort, publish. -/
def loadFeedsStep (all : List Article) (seen : List String)
    (batch : List Article) : List Article × List String :=
  let r := processArticles seen batch
  (jsSort pubDateGt (all ++ r.1), r.2)

def loadFeedsGo (all : List Article) (seen : List String) :
    List (List Article) → List (List Article)
  | [] => []
  | b :: rest =>
    let r := loadFeedsStep all seen b
    r.1 :: loadFeedsGo r.1 r.2 rest

/-- The sequence of article lists published by `setArticles`, one per batch.
Each batch is the flattened list of its feeds' `fetchFeed` results. -/
def loadFeedsSnapshots (batches : List (List Article)) : List (List Article) :=
  loadFeedsGo [] [] batches

/-- The accumulated set after the last batch. -/
def loadFeedsFinal (batches : List (List Article)) : List Article :=
  (loadFeedsSnapshots batches).getLastD []

/-! ## Trend engine (src/components/TrendsDashboard.tsx)

Tokenisation: lower-case, strip the characters the regex `[^\w\s]` removes,
split on whitespace runs (JS `split(/\s+/)` can emit a leading empty token;
empty tokens are dropped here, and are in any case removed by every downstream
`length > 2` filter), collect into a Set (first-occurrence order). -/

def isWordChar (c : Char) : Bool := c.isAlphanum || c = '_'

def isSpaceChar (c : Char) : Bool := c = ' ' || c = '\t' || c = '\n' || c = '\r'

def stripNonWord (s : String) : String :=
  ⟨s.data.filter fun c => isWordChar c || isSpaceChar c⟩

def splitWsGo : List Char → List Char → List String
  | [], [] => []
  | [], acc => [String.mk acc.reverse]
  | c :: rest, acc =>
    if isSpaceChar c then
      match acc with
      | [] => splitWsGo rest []
      | _ => String.mk acc.reverse :: splitWsGo rest []
    else splitWsGo rest (c :: acc)

def splitWsTokens (s : String) : List String := splitWsGo s.data []

/-- First-occurrence deduplication, as a JS `Set` built by insertion. -/
def dedupFirstGo (seen : List String) : List String → List String
  | [] => []
  | x :: xs =>
    if x ∈ seen then dedupFirstGo seen xs
    else x :: dedupFirstGo (x :: seen) xs

def dedupFirst (l : List String) : List String := dedupFirstGo [] l

/-- Modelled from the spec: the `STOP_WORDS` constant is imported from
`src/constants.ts`, which is not among the provided sources; per the spec's
glossary ("Stop word: a common word (e.g. "the", "and") excluded from keyword
trend counting") it is modelled as a fixed set of common English words.  No
result below depends on its exact contents. -/
def STOP_WORDS : List String :=
  ["the", "and", "for", "are", "but", "not", "you", "all", "was", "his",
   "her", "has", "had", "this", "that", "with", "from", "have", "been",
   "were", "will", "would", "their", "there", "they", "them", "then",
   "when", "what", "who", "which", "your", "its", "our", "out", "can",
   "said", "says", "after", "more", "also", "how", "why", "amid", "over"]

def isOctDigit (c : Char) : Bool := '0' ≤ c ∧ c ≤ '7'

def isLowerHexDigit (c : Char) : Bool := c.isDigit || ('a' ≤ c ∧ c ≤ 'f')

def isDigitRun (cs : List Char) : Bool := cs ≠ [] ∧ cs.all Char.isDigit

/-- Models `!isNaN(Number(token))` on the lower-case `\w`-only tokens the
tokeniser produces: the decimal, hex/octal/binary and exponent literal forms
`Number` accepts (dots and signs cannot occur — `[^\w\s]` removed them). -/
def jsNumericToken (t : String) : Bool :=
  match t.data with
  | [] => true
  | '0' :: 'x' :: rest => rest ≠ [] ∧ rest.all isLowerHexDigit
  | '0' :: 'o' :: rest => rest ≠ [] ∧ rest.all isOctDigit
  | '0' :: 'b' :: rest => rest ≠ [] ∧ rest.all fun c => c = '0' || c = '1'
  | cs =>
    let r := splitFirst 'e' cs
    match r.2 with
    | none => isDigitRun r.1
    | some e => isDigitRun r.1 ∧ isDigitRun e

/-- The token admission test of `calculateTrends` (TrendsDashboard.tsx line
55): length over 2, not a stop word, `Number` coercion yields `NaN`. -/
def validToken (t : String) : Bool :=
  t.length > 2 ∧ t ∉ STOP_WORDS ∧ ¬ jsNumericToken t

/-- The per-article token set of `calculateTrends` (lines 51–52):
`new Set(((title + " " + snippet).toLowerCase().replace(/[^\w\s]/g, '')).split(/\s+/))`. -/
def articleTokens (a : Article) : List String :=
  dedupFirst (splitWsTokens (stripNonWord (jsToLower (a.title ++ " " ++ a.contentSnippet))))

structure TrendTopic where
  keyword : String
  count : Nat
  relatedArticles : List Article
  deriving DecidableEq

/-- The `words` record: an association list in key-insertion order, as a JS
object with string keys iterates. -/
def bumpToken (tbl : List (String × Nat × List Article)) (tok : String)
    (a : Article) : List (String × Nat × List Article) :=
  if tbl.any fun e => e.1 = tok then
    tbl.map fun e => if e.1 = tok then (e.1, e.2.1 + 1, e.2.2 ++ [a]) else e
  else tbl ++ [(tok, 1, [a])]

def addArticleTokens (tbl : List (String × Nat × List Article)) (a : Article) :
    List (String × Nat × List Article) :=
  (articleTokens a).foldl
    (fun tbl tok => if validToken tok then bumpToken tbl tok a else tbl) tbl

def wordsTable (arts : List Article) : List (String × Nat × List Article) :=
  arts.foldl addArticleTokens []

/-- `keyword.charAt(0).toUpperCase() + keyword.slice(1)`. -/
def capitalize (s : String) : String :=
  match s.data with
  | [] => ""
  | c :: cs => ⟨asciiUpperChar c :: cs⟩

/-- Comparator `(a, b) => b.count - a.count`, as `comparefn(p, q) > 0`. -/
def countGt (p q : TrendTopic) : Bool := q.count > p.count

/-- `calculateTrends` (TrendsDashboard.tsx lines 47–73). -/
def calculateTrends (arts : List Article) : List TrendTopic :=
  (jsSort countGt
    ((wordsTable arts).map fun e =>
      { keyword := capitalize e.1, count := e.2.1, relatedArticles := e.2.2 })).take 30

/-- The recent-window filter (lines 78–83): keep an article iff
`(a.isoDate ? new Date(a.isoDate) : new Date()) >= new Date(now - 3600000)`;
a `Date` comparison against an Invalid Date is false. -/
def recentKeep (now : Int) (a : Article) : Bool :=
  match (if a.isoDate ≠ "" then jsDateParse a.isoDate else some now) with
  | some t => t ≥ now - 3600000
  | none => false

def recentArticles (now : Int) (arts : List Article) : List Article :=
  arts.filter (recentKeep now)

def recentTrendTopics (now : Int) (arts : List Article) : List TrendTopic :=
  calculateTrends (recentArticles now arts)

/-! ## Story clustering (TrendsDashboard.tsx lines 87–123) -/

/-- `getTokens` (lines 42–44): significant title tokens. -/
def getTokens (text : String) : List String :=
  dedupFirst ((splitWsTokens (stripNonWord (jsToLower text))).filter
    fun w => w.length > 2 ∧ w ∉ STOP_WORDS)

/-- `tokens.forEach(t => { if (otherTokens.has(t)) intersection++ })`. -/
def intersectCount (ts os : List String) : Nat :=
  (ts.filter fun t => os.contains t).length

/-- The clustering pre-sort comparator (line 92):
`new Date(b.isoDate).getTime() - new Date(a.isoDate).getTime()`. -/
def isoDateGt (p q : Article) : Bool :=
  match jsDateParse q.isoDate, jsDateParse p.isoDate with
  | some tq, some tp => tq > tp
  | _, _ => false

def sortByIsoDesc (arts : List Article) : List Article := jsSort isoDateGt arts

/-- The inner scan (lines 104–117): walk the whole sorted list, absorbing every
not-yet-processed article whose significant title tokens meet the seed's in at
least 2 tokens. -/
def scanCluster (seedTokens : List String) (sorted : List Article)
    (proc : List String) : List Article × List String :=
  sorted.foldl
    (fun s other =>
      if s.2.contains other.id then s
      else if intersectCount seedTokens (getTokens other.title) ≥ 2 then
        (s.1 ++ [other], other.id :: s.2)
      else s)
    ([], proc)

/-- The outer pass (lines 94–123) over an already-sorted list: seed from each
unprocessed article with at least 3 significant title tokens, absorb matches,
keep clusters of size at least 2 (with the seed's token set). -/
def buildClusters (sorted : List Article) : List (List Article × List String) :=
  (sorted.foldl
    (fun st a =>
      if st.1.contains a.id then st
      else
        let ts := getTokens a.title
        if ts.length < 3 then st
        else
          let r := scanCluster ts sorted (a.id :: st.1)
          let cluster := a :: r.1
          if cluster.length ≥ 2 then (r.2, st.2 ++ [(cluster, ts)])
          else (r.2, st.2))
    ([], [])).2

/-- The clusters produced by `calculateTrendingStories` before ranking and
topic-deduplication. -/
def trendingClusters (arts : List Article) : List (List Article × List String) :=
  buildClusters (sortByIsoDesc arts)

/-! ## Spec-side predicates and helper definitions for the theorems -/

/-- An article snippet or string "contains no HTML tags": no `<` survives. -/
def hasNoTag (s : String) : Bool := decide ('<' ∉ s.data)

/-- The claim's per-pair ordering "the earlier-positioned article's `isoDate`
is greater than or equal to the later-positioned one's", read on parsed times
(vacuous when either side does not parse). -/
def isoGEb (p q : Article) : Bool :=
  match jsDateParse p.isoDate, jsDateParse q.isoDate with
  | some tp, some tq => tq ≤ tp
  | _, _ => true

/-- A published article list is sorted descending by `isoDate`. -/
def publishedSortedDesc (l : List Article) : Prop :=
  List.Chain' (fun p q => isoGEb p q = true) l

/-- The media-content elements stage 1 accepts: a truthy `url` whose `type` is
absent or starts with `image`. -/
def acceptableMedia (m : MediaRef) : Bool :=
  match m.url? with
  | some u => u ≠ "" ∧ (m.type? = none ∨ jsStartsWith (m.type?.getD "") "image")
  | none => false

def mediaUrl (m : MediaRef) : String := m.url?.getD ""

/-- Stage 1 summarised from the spec's words, for comparison with the code's
loop: the first acceptable GIF wins immediately; otherwise the last acceptable
element's URL (the claim instead says the first) — falling back to the running
thumbnail. -/
def gifElseLast (l : List MediaRef) (th : String) : String :=
  match (l.filter acceptableMedia).find? (fun m => isGif (mediaUrl m)) with
  | some m => mediaUrl m
  | none => ((l.filter acceptableMedia).map mediaUrl).getLastD th

/-- Stages 2–4 as one function of the stage-1 result. -/
def stagesAfter1 (it : RawItem) (th : String) : String :=
  stage4InlineImg it.content it.description
    (stage3MediaThumbnail it.mediaThumbnail (stage2Enclosure it.enclosure th))

/-- The count recorded in the `words` table for a token (0 when absent). -/
def tableCount (tbl : List (String × Nat × List Article)) (tok : String) : Nat :=
  match tbl.find? (fun e => e.1 = tok) with
  | some e => e.2.1
  | none => 0

/-! ## Concrete inputs for counterexamples and witnesses -/

/-- A fixed feed for concrete evaluations. -/
def feed1 : Feed := { id := "f1", url := "https://feed.example/rss", title := "Feed One", color := "#123456" }

/-- A concrete current time: 2025-10-09T08:53:20.123Z. -/
def tNow : Int := 1760000000123

def mkArticle (title link pubDate isoDate : String) : Article :=
  { id := jsOr link "x1", feedId := "f1", feedTitle := "Feed One", feedColor := "#123456",
    title := title, link := link, content := "", contentSnippet := "",
    pubDate := pubDate, isoDate := isoDate, thumbnail := "", author := "" }

def mkRawItem : RawItem :=
  { title := "T", link := "", pubDate := "", description := "", content := "",
    author := "", mediaContents := [], enclosure := none, mediaThumbnail := none }

def mkJsonItem : JsonItem :=
  { guid := "", link := "", title := "T", content := "", description := "",
    pubDate := "", thumbnail := "", author := "" }

/-- An article of the C3 counterexample, produced by the pipeline from an item
with an empty `pubDate`: its `isoDate` is the current time. -/
def cexArtA : Article :=
  { mkArticle "A" "" "" "2025-10-09T08:53:20.123Z" with id := randomToken }

/-- An article of the C3 counterexample with a parsed 2024 `pubDate`. -/
def cexArtB : Article :=
  { mkArticle "B" "" "2024-01-01T10:00:00.000Z" "2024-01-01T10:00:00.000Z" with
      id := randomToken }

/-! ## Helper lemmas: the JS sort model -/

theorem insRev_perm (gt : α → α → Bool) (x : α) (l : List α) :
    (insRev gt x l).Perm (x :: l) := by
  induction l with
  | nil => simp [insRev]
  | cons y ys ih =>
    simp only [insRev]
    split
    · exact (ih.cons y).trans (List.Perm.swap x y ys)
    · exact List.Perm.refl _

theorem foldl_insRev_perm (gt : α → α → Bool) :
    ∀ (l r : List α), (l.foldl (fun r x => insRev gt x r) r).Perm (l ++ r)
  | [], r => by simp
  | x :: xs, r => by
    simp only [List.foldl_cons]
    refine (foldl_insRev_perm gt xs (insRev gt x r)).trans ?_
    exact ((insRev_perm gt x r).append_left xs).trans List.perm_middle

theorem jsSort_perm (gt : α → α → Bool) (l : List α) : (jsSort gt l).Perm l := by
  unfold jsSort
  refine (List.reverse_perm _).trans ?_
  simpa using foldl_insRev_perm gt l []

theorem mem_jsSort {gt : α → α → Bool} {l : List α} {a : α} :
    a ∈ jsSort gt l ↔ a ∈ l :=
  (jsSort_perm gt l).mem_iff

theorem countP_jsSort (gt : α → α → Bool) (l : List α) (p : α → Bool) :
    (jsSort gt l).countP p = l.countP p :=
  (jsSort_perm gt l).countP_eq p

/-- Pointwise weakening of `Chain'` using membership of both endpoints. -/
theorem chain'_mono_mem {R S : α → α → Prop} :
    ∀ {l : List α}, (∀ a ∈ l, ∀ b ∈ l, R a b → S a b) →
      List.Chain' R l → List.Chain' S l
  | [], _, _ => List.chain'_nil
  | [_], _, _ => List.chain'_singleton _
  | a :: b :: t, h, hc => by
    rw [List.chain'_cons] at hc ⊢
    refine ⟨h a (by simp) b (by simp) hc.1, chain'_mono_mem ?_ hc.2⟩
    intro x hx y hy
    exact h x (by simp [hx]) y (by simp [hy])

/-- The head of an insertion result is the inserted element or the old head. -/
theorem insRev_head (gt : α → α → Bool) (x : α) :
    ∀ (ys : List α) (z : α), (insRev gt x ys).head? = some z →
      z = x ∨ ys.head? = some z
  | [], z, h => by
    simp [insRev] at h
    exact Or.inl h.symm
  | w :: ws, z, h => by
    simp only [insRev] at h
    split at h
    · simp at h
      exact Or.inr (by simp [h])
    · simp at h
      exact Or.inl h.symm

/-- The sorted part (stored reversed) stays ascending in `k` after inserting
`x`, provided the comparator agrees with `k` on the involved elements. -/
theorem insRev_chain {P : α → Prop} {k : α → Int} {gt : α → α → Bool}
    (hgt : ∀ a b, P a → P b → (gt a b = true ↔ k a < k b)) :
    ∀ {r : List α} {x : α}, P x → (∀ y ∈ r, P y) →
      List.Chain' (fun p q => k p ≤ k q) r →
      List.Chain' (fun p q => k p ≤ k q) (insRev gt x r)
  | [], x, _, _, _ => List.chain'_singleton x
  | y :: ys, x, hx, hmem, hchain => by
    have hy : P y := hmem y (by simp)
    simp only [insRev]
    split
    · rename_i hgty
      have hyx : k y < k x := (hgt y x hy hx).mp hgty
      have htail : List.Chain' (fun p q => k p ≤ k q) (insRev gt x ys) :=
        insRev_chain hgt hx (fun z hz => hmem z (by simp [hz])) hchain.tail
      rw [List.chain'_cons']
      refine ⟨fun z hz => ?_, htail⟩
      rcases insRev_head gt x ys z hz with rfl | hh
      · omega
      · exact (List.chain'_cons'.mp hchain).1 z hh
    · rename_i hgty
      have hxy : ¬ k y < k x := fun h => hgty ((hgt y x hy hx).mpr h)
      rw [List.chain'_cons]
      exact ⟨by omega, hchain⟩

theorem jsSort_chain {P : α → Prop} {k : α → Int} {gt : α → α → Bool}
    (hgt : ∀ a b, P a → P b → (gt a b = true ↔ k a < k b))
    (l : List α) (hP : ∀ a ∈ l, P a) :
    List.Chain' (fun p q => k q ≤ k p) (jsSort gt l) := by
  suffices h : ∀ (l r : List α), (∀ a ∈ l, P a) → (∀ a ∈ r, P a) →
      List.Chain' (fun p q => k p ≤ k q) r →
      List.Chain' (fun p q => k p ≤ k q) (l.foldl (fun r x => insRev gt x r) r) by
    have := h l [] hP (by simp) List.chain'_nil
    unfold jsSort
    rw [List.chain'_reverse]
    exact this
  intro l
  induction l with
  | nil => intro r _ _ hc; simpa using hc
  | cons x xs ih =>
    intro r hl hr hc
    simp only [List.foldl_cons]
    refine ih (insRev gt x r) (fun a ha => hl a (by simp [ha])) ?_ ?_
    · intro a ha
      have hmem : a ∈ x :: r := (insRev_perm gt x r).mem_iff.mp ha
      rcases List.mem_cons.mp hmem with rfl | h
      · exact hl a (by simp)
      · exact hr a h
    · exact insRev_chain hgt (hl x (by simp)) hr hc

/-- All-`none` lists short-circuit to `none`. -/
theorem firstSuccess_none {l : List (Option (List Article))}
    (h : ∀ x ∈ l, x = none) : firstSuccess l = none := by
  induction l with
  | nil => rfl
  | cons x rest ih =>
    have hx := h x (by simp)
    subst hx
    exact ih fun y hy => h y (by simp [hy])

/-! ## Helper lemmas: stripHtml and snippets -/

theorem stripHtmlCore_no_lt : ∀ (cs : List Char) (b : Bool),
    '<' ∉ stripHtmlCore cs b
  | [], _ => by simp [stripHtmlCore]
  | c :: rest, b => by
    simp only [stripHtmlCore]
    split
    · exact stripHtmlCore_no_lt rest _
    · split
      · exact stripHtmlCore_no_lt rest true
      · rename_i hb hc
        intro hmem
        rcases List.mem_cons.mp hmem with h | h
        · exact hc h.symm
        · exact stripHtmlCore_no_lt rest false h

theorem stripHtml_no_lt (s : String) : '<' ∉ (stripHtml s).data := by
  unfold stripHtml
  split
  · simp [String.data]
  · exact stripHtmlCore_no_lt s.data false

theorem snippet_hasNoTag {s : String} (ellipsis : String)
    (hell : '<' ∉ ellipsis.data) :
    hasNoTag (jsSlice (stripHtml s) 150 ++ ellipsis) = true := by
  rw [hasNoTag, decide_eq_true_eq]
  intro hmem
  rw [String.data_append] at hmem
  rcases List.mem_append.mp hmem with h | h
  · exact stripHtml_no_lt s (List.mem_of_mem_take (by simpa [jsSlice] using h))
  · exact hell h

theorem snippet_length_le {s : String} {ellipsis : String}
    (hell : ellipsis.length ≤ 3) :
    (jsSlice (stripHtml s) 150 ++ ellipsis).length ≤ 153 := by
  have h1 : (jsSlice (stripHtml s) 150).length ≤ 150 :=
    List.length_take_le 150 (stripHtml s).data
  have := String.length_append (jsSlice (stripHtml s) 150) ellipsis
  omega

/-! ## Claim theorems -/

/-- Claim C6: when every proxy attempt fails (non-success status, HTML body,
XML parse error, no items — or the item map throwing) and the rss2json
fallback fails or returns nothing, `fetchFeed` returns the empty article list;
being a total function of its observed inputs, it never throws past the
pipeline boundary. -/
theorem claim_C6 (feed : Feed) (now : Int) (outcomes : List ProxyOutcome)
    (resp : Option (Bool × List JsonItem))
    (hall : ∀ o ∈ outcomes, runProxyAttempt feed now o = none)
    (hfb : fetchWithRss2Json feed resp = []) :
    fetchFeed feed now outcomes resp = [] := by
  unfold fetchFeed
  rw [firstSuccess_none ?_]
  · simp [hfb]
  · intro x hx
    rcases List.mem_map.mp hx with ⟨o, ho, rfl⟩
    exact hall o ho

theorem claim_C6_witness :
    (∀ o ∈ ([.fail, .parsed [], .parsed [{ mkRawItem with pubDate := "bad date" }]] : List ProxyOutcome),
      runProxyAttempt feed1 tNow o = none) ∧
    fetchWithRss2Json feed1 (some (false, [mkJsonItem])) = [] ∧
    fetchFeed feed1 tNow [.fail, .parsed [], .parsed [{ mkRawItem with pubDate := "bad date" }]]
      (some (false, [mkJsonItem])) = [] := by
  refine ⟨?_, ?_, ?_⟩
  · decide
  · decide
  · exact claim_C6 feed1 tNow _ _ (by decide) (by decide)

/-- Claim C1 counterexample: an item whose `pubDate` is non-empty but
malformed does not yield an article with `isoDate` equal to the current time —
`new Date(pubDate).toISOString()` throws, the mapping fails (and through it the
whole proxy attempt), and on the JSON path the fallback returns `[]`. -/
theorem claim_C1_cex :
    mapRawItem feed1 tNow { mkRawItem with pubDate := "not a date" } = none ∧
    runProxyAttempt feed1 tNow
      (.parsed [{ mkRawItem with pubDate := "not a date" }]) = none ∧
    mapJsonItem feed1 { mkJsonItem with pubDate := "not a date" } = none ∧
    fetchWithRss2Json feed1
      (some (true, [{ mkJsonItem with pubDate := "not a date" }])) = [] := by
  refine ⟨by decide, by decide, by decide, by decide⟩

/-- Claim C1 (amended): on both ingestion paths a produced article's `isoDate`
is the ISO form of the parsed `pubDate` when `pubDate` parses, and the current
time at parse when `pubDate` is empty; but an item with a non-empty, unparsable
`pubDate` produces no article at all — the XML-path map fails (failing that
proxy attempt) and the JSON-path map fails (making the fallback return `[]`). -/
theorem claim_C1 (feed : Feed) (now : Int) (it : RawItem) (jit : JsonItem) :
    (∀ art, mapRawItem feed now it = some art →
      (it.pubDate = "" → art.isoDate = toISOString now) ∧
      (∀ t, jsDateParse it.pubDate = some t → art.isoDate = toISOString t)) ∧
    (it.pubDate ≠ "" → jsDateParse it.pubDate = none →
      mapRawItem feed now it = none) ∧
    (∀ art, mapJsonItem feed jit = some art →
      ∃ t, jsDateParse jit.pubDate = some t ∧ art.isoDate = toISOString t) ∧
    (jsDateParse jit.pubDate = none → mapJsonItem feed jit = none) := by
  refine ⟨?_, ?_, ?_, ?_⟩
  · intro art hart
    unfold mapRawItem at hart
    by_cases hpd : it.pubDate = ""
    · simp only [hpd, ne_eq, not_true_eq_false, if_false, Option.map_some'] at hart
      cases hart
      exact ⟨fun _ => rfl, fun t ht => by rw [jsDateParse] at ht; simp [hpd] at ht⟩
    · simp only [hpd, ne_eq, not_false_eq_true, if_true] at hart
      rcases Option.map_eq_some'.mp hart with ⟨iso, hiso, hart'⟩
      rcases Option.map_eq_some'.mp hiso with ⟨t, ht, rfl⟩
      cases hart'
      refine ⟨fun h => absurd h hpd, fun t' ht' => ?_⟩
      rw [ht] at ht'
      cases ht'
      rfl
  · intro hpd hparse
    unfold mapRawItem
    simp [hpd, hparse]
  · intro art hart
    unfold mapJsonItem at hart
    rcases Option.map_eq_some'.mp hart with ⟨t, ht, hart'⟩
    cases hart'
    exact ⟨t, ht, rfl⟩
  · intro hparse
    unfold mapJsonItem
    simp [hparse]

theorem claim_C1_witness :
    (mapRawItem feed1 tNow mkRawItem).map Article.isoDate =
        some (toISOString tNow) ∧
    (mapRawItem feed1 tNow
        { mkRawItem with pubDate := "2024-01-01T10:00:00.000Z" }).map
        Article.isoDate = some (toISOString 1704103200000) ∧
    mapRawItem feed1 tNow { mkRawItem with pubDate := "nonsense" } = none := by
  have h1 := claim_C1 feed1 tNow mkRawItem mkJsonItem
  have h2 := claim_C1 feed1 tNow
    { mkRawItem with pubDate := "2024-01-01T10:00:00.000Z" } mkJsonItem
  have h3 := claim_C1 feed1 tNow { mkRawItem with pubDate := "nonsense" } mkJsonItem
  refine ⟨?_, ?_, h3.2.1 (by decide) (by decide)⟩
  · rcases hart : mapRawItem feed1 tNow mkRawItem with _ | art
    · exact absurd hart (by decide)
    · rw [Option.map_some']
      exact congrArg some ((h1.1 art hart).1 (by decide))
  · rcases hart : mapRawItem feed1 tNow
        { mkRawItem with pubDate := "2024-01-01T10:00:00.000Z" } with _ | art
    · exact absurd hart (by decide)
    · rw [Option.map_some']
      exact congrArg some ((h2.1 art hart).2 1704103200000 (by decide))

/-- Claim C2 counterexample: on the JSON fallback path a snippet far shorter
than 150 characters still carries an ellipsis — the `'...'` is appended
unconditionally, so "ellipsis only if truncation occurred" fails there. -/
theorem claim_C2_cex :
    (mapJsonItem feed1
        { mkJsonItem with description := "Hi",
                          pubDate := "2024-01-01T00:00:00.000Z" }).map
      Article.contentSnippet = some "Hi..." ∧
    (stripHtml "Hi").length ≤ 150 ∧ ("Hi..." : String) ≠ "Hi" := by
  refine ⟨by decide, by decide, by decide⟩

/-- Claim C2 (amended): on the XML parse path `contentSnippet` is the
HTML-stripped description-or-content truncated to 150 characters with `'...'`
appended exactly when truncation occurred; on the JSON fallback path the same
stripped, truncated text but with `'...'` appended unconditionally.  On both
paths the snippet is at most 153 characters and contains no HTML tag. -/
theorem claim_C2 (feed : Feed) (now : Int) (it : RawItem) (jit : JsonItem) :
    (∀ art, mapRawItem feed now it = some art →
      art.contentSnippet =
        jsSlice (stripHtml (jsOr it.description it.content)) 150 ++
          (if (stripHtml (jsOr it.description it.content)).length > 150
            then "..." else "") ∧
      art.contentSnippet.length ≤ 153 ∧ hasNoTag art.contentSnippet = true) ∧
    (∀ art, mapJsonItem feed jit = some art →
      art.contentSnippet =
        jsSlice (stripHtml (jsOr jit.description jit.content)) 150 ++ "..." ∧
      art.contentSnippet.length ≤ 153 ∧ hasNoTag art.contentSnippet = true) := by
  constructor
  · intro art hart
    have hsnip : art.contentSnippet =
        jsSlice (stripHtml (jsOr it.description it.content)) 150 ++
          (if (stripHtml (jsOr it.description it.content)).length > 150
            then "..." else "") := by
      unfold mapRawItem at hart
      rcases Option.map_eq_some'.mp hart with ⟨iso, _, hart'⟩
      cases hart'
      rfl
    refine ⟨hsnip, ?_, ?_⟩
    · rw [hsnip]
      refine snippet_length_le ?_
      split <;> decide
    · rw [hsnip]
      refine snippet_hasNoTag _ ?_
      split <;> decide
  · intro art hart
    have hsnip : art.contentSnippet =
        jsSlice (stripHtml (jsOr jit.description jit.content)) 150 ++ "..." := by
      unfold mapJsonItem at hart
      rcases Option.map_eq_some'.mp hart with ⟨t, _, hart'⟩
      cases hart'
      rfl
    refine ⟨hsnip, ?_, ?_⟩
    · rw [hsnip]
      exact snippet_length_le (by decide)
    · rw [hsnip]
      exact snippet_hasNoTag _ (by decide)

theorem claim_C2_witness :
    (mapRawItem feed1 tNow
        { mkRawItem with description := "<p>Hello <b>world</b></p>" }).map
      Article.contentSnippet = some "Hello world" := by
  rcases hart : mapRawItem feed1 tNow
      { mkRawItem with description := "<p>Hello <b>world</b></p>" } with _ | art
  · exact absurd hart (by decide)
  · rw [Option.map_some']
    have h := (claim_C2 feed1 tNow
      { mkRawItem with description := "<p>Hello <b>world</b></p>" }
      mkJsonItem).1 art hart
    rw [h.1]
    decide

/-! ## Helper lemmas: thumbnail stages -/

theorem isGif_ne_empty {u : String} (h : isGif u = true) : u ≠ "" := by
  intro h0
  rw [h0] at h
  exact absurd h (by decide)

/-- The stage-1 loop computes: the first acceptable GIF if one exists, else the
last acceptable element's URL, else the incoming thumbnail. -/
theorem stage1_spec (l : List MediaRef) : ∀ th,
    stage1MediaContent l th = gifElseLast l th := by
  induction l with
  | nil => intro th; rfl
  | cons mc rest ih =>
    intro th
    rcases hurl : mc.url? with _ | url
    · have hacc : acceptableMedia mc = false := by simp [acceptableMedia, hurl]
      simp only [stage1MediaContent, hurl]
      rw [ih th]
      simp [gifElseLast, List.filter_cons, hacc]
    · by_cases hcond : url ≠ "" ∧
        (mc.type? = none ∨ jsStartsWith (mc.type?.getD "") "image")
      · have hacc : acceptableMedia mc = true := by
          simp [acceptableMedia, hurl, hcond.1, hcond.2]
        have hmu : mediaUrl mc = url := by simp [mediaUrl, hurl]
        by_cases hgif : isGif url = true
        · simp only [stage1MediaContent, hurl, if_pos hcond, if_pos hgif]
          simp [gifElseLast, List.filter_cons, hacc,
            List.find?_cons_of_pos, hmu, hgif]
        · simp only [stage1MediaContent, hurl, if_pos hcond, if_neg hgif]
          rw [ih url]
          have hfind : ((mc :: rest).filter acceptableMedia).find?
              (fun m => isGif (mediaUrl m)) =
              (rest.filter acceptableMedia).find? (fun m => isGif (mediaUrl m)) := by
            rw [List.filter_cons_of_pos (by simp [hacc])]
            exact List.find?_cons_of_neg _ (by simp [hmu, hgif])
          rcases hf : (rest.filter acceptableMedia).find?
              (fun m => isGif (mediaUrl m)) with _ | m
          · simp only [gifElseLast, hfind, hf]
            rw [List.filter_cons_of_pos (by simp [hacc]), List.map_cons,
              List.getLastD_cons, hmu]
          · simp [gifElseLast, hf, hfind]
      · have hacc : acceptableMedia mc = false := by
          simp only [acceptableMedia, hurl]
          simpa using fun h1 h2 => hcond ⟨h1, h2⟩
        simp only [stage1MediaContent, hurl, if_neg hcond]
        rw [ih th]
        simp [gifElseLast, List.filter_cons, hacc]

theorem stage2_override (e? : Option MediaRef) (th : String) (hth : th ≠ "") :
    stage2Enclosure e? th = th ∨ isGif (stage2Enclosure e? th) = true := by
  rcases e? with _ | e
  · simp only [stage2Enclosure]
    split <;> left <;> rfl
  · rcases he : e.type? with _ | t
    · simp only [stage2Enclosure, he]
      split <;> left <;> rfl
    · simp only [stage2Enclosure, he]
      split
      · by_cases hst : jsStartsWith t "image" = true
        · rw [if_pos hst]
          by_cases hg : isGif (e.url?.getD "") = true
          · rw [if_pos (Or.inr hg)]
            exact Or.inr hg
          · rw [if_neg (fun h => h.elim hth hg)]
            exact Or.inl rfl
        · rw [if_neg hst]
          exact Or.inl rfl
      · exact Or.inl rfl

theorem stage3_override (mt? : Option MediaRef) (th : String) (hth : th ≠ "") :
    stage3MediaThumbnail mt? th = th ∨
      isGif (stage3MediaThumbnail mt? th) = true := by
  rcases mt? with _ | e
  · simp only [stage3MediaThumbnail]
    split <;> left <;> rfl
  · simp only [stage3MediaThumbnail]
    split
    · by_cases hg : isGif (e.url?.getD "") = true
      · rw [if_pos (Or.inr hg)]
        exact Or.inr hg
      · rw [if_neg (fun h => h.elim hth hg)]
        exact Or.inl rfl
    · exact Or.inl rfl

theorem stage4_override (content description th : String) (hth : th ≠ "") :
    stage4InlineImg content description th = th ∨
      isGif (stage4InlineImg content description th) = true := by
  simp only [stage4InlineImg]
  split
  · by_cases hci : extractImageFromContent (jsOr content description) ≠ ""
    · rw [if_pos hci]
      by_cases hg : isGif (extractImageFromContent (jsOr content description)) = true
      · rw [if_pos (Or.inr hg)]
        exact Or.inr hg
      · rw [if_neg (fun h => h.elim hth hg)]
        exact Or.inl rfl
    · rw [if_neg hci]
      exact Or.inl rfl
  · exact Or.inl rfl

/-- Composition of stages 2–4: once a non-empty thumbnail is in hand, later
stages either leave it unchanged or replace it with a GIF. -/
theorem stagesAfter1_override (it : RawItem) (th : String) (hth : th ≠ "") :
    stagesAfter1 it th = th ∨ isGif (stagesAfter1 it th) = true := by
  have h2 := stage2_override it.enclosure th hth
  have hs2 : stage2Enclosure it.enclosure th ≠ "" := by
    rcases h2 with h | h
    · rw [h]; exact hth
    · exact isGif_ne_empty h
  have h3 := stage3_override it.mediaThumbnail _ hs2
  have hs3 : stage3MediaThumbnail it.mediaThumbnail
      (stage2Enclosure it.enclosure th) ≠ "" := by
    rcases h3 with h | h
    · rw [h]; exact hs2
    · exact isGif_ne_empty h
  have h4 := stage4_override it.content it.description _ hs3
  unfold stagesAfter1
  rcases h4 with h | h
  · rw [h]
    rcases h3 with h' | h'
    · rw [h']
      exact h2
    · exact Or.inr h'
  · exact Or.inr h

/-- Claim C5 counterexample: among two acceptable non-GIF media-content
elements of one item the second one's URL becomes the thumbnail (each
acceptable element overwrites the running value), not the first one's. -/
theorem claim_C5_cex :
    resolveThumbnail { mkRawItem with mediaContents :=
        [{ type? := none, url? := some "http://img.example/first.jpg" },
         { type? := none, url? := some "http://img.example/second.jpg" }] } =
      "http://img.example/second.jpg" ∧
    ("http://img.example/second.jpg" : String) ≠ "http://img.example/first.jpg" := by
  refine ⟨by decide, by decide⟩

/-- Claim C5 (amended): the four extraction stages run in strict priority
order and, from stage 2 on, a later-found image overrides a non-empty earlier
one only if the later one is a GIF; within stage 1, however, every acceptable
media-content element overwrites the running value — a GIF wins immediately,
otherwise the last (not the first) acceptable element's URL survives the
stage. -/
theorem claim_C5 (it : RawItem) (th : String) (hth : th ≠ "") :
    stage1MediaContent it.mediaContents "" = gifElseLast it.mediaContents "" ∧
    resolveThumbnail it = stagesAfter1 it (stage1MediaContent it.mediaContents "") ∧
    (stagesAfter1 it th = th ∨ isGif (stagesAfter1 it th) = true) :=
  ⟨stage1_spec it.mediaContents "", rfl, stagesAfter1_override it th hth⟩

theorem claim_C5_witness :
    (stagesAfter1
        { mkRawItem with
            enclosure := some { type? := some "image/gif",
                                url? := some "http://img.example/anim.gif" } }
        "http://img.example/static.jpg" =
          "http://img.example/static.jpg" ∨
      isGif (stagesAfter1
        { mkRawItem with
            enclosure := some { type? := some "image/gif",
                                url? := some "http://img.example/anim.gif" } }
        "http://img.example/static.jpg") = true) ∧
    stage1MediaContent
        [MediaRef.mk none (some "http://img.example/a.gif"),
         MediaRef.mk none (some "http://img.example/b.jpg")] "" =
      gifElseLast
        [MediaRef.mk none (some "http://img.example/a.gif"),
         MediaRef.mk none (some "http://img.example/b.jpg")] "" := by
  refine ⟨(claim_C5 _ _ (by decide)).2.2, (claim_C5 { mkRawItem with
    mediaContents := [MediaRef.mk none (some "http://img.example/a.gif"),
      MediaRef.mk none (some "http://img.example/b.jpg")] } "x" (by decide)).1⟩

/-! ## Helper lemmas: the orchestrator's merge -/

theorem pa_mem : ∀ (l : List Article) (seen : List String) (a : Article),
    a ∈ (processArticles seen l).1 → a ∈ l ∧ dedupeKey a ≠ ""
  | [], _, a, h => by simp [processArticles] at h
  | x :: rest, seen, a, h => by
    by_cases hcond : dedupeKey x ≠ "" ∧ dedupeKey x ∉ seen
    · rw [processArticles, if_pos hcond] at h
      rcases List.mem_cons.mp h with rfl | h'
      · exact ⟨by simp, hcond.1⟩
      · have := pa_mem rest (dedupeKey x :: seen) a h'
        exact ⟨by simp [this.1], this.2⟩
    · rw [processArticles, if_neg hcond] at h
      have := pa_mem rest seen a h
      exact ⟨by simp [this.1], this.2⟩

theorem pa_append : ∀ (xs ys : List Article) (seen : List String),
    processArticles seen (xs ++ ys) =
      ((processArticles seen xs).1 ++
        (processArticles (processArticles seen xs).2 ys).1,
       (processArticles (processArticles seen xs).2 ys).2)
  | [], ys, seen => by simp [processArticles]
  | x :: xs, ys, seen => by
    by_cases hcond : dedupeKey x ≠ "" ∧ dedupeKey x ∉ seen
    · simp only [List.cons_append, processArticles, if_pos hcond, List.append_eq]
      rw [pa_append xs ys (dedupeKey x :: seen)]
    · simp only [List.cons_append, processArticles, if_neg hcond, List.append_eq]
      rw [pa_append xs ys seen]

/-- The kept occurrences of a (non-empty) key are exactly the first stream
occurrence of that key — none at all if the key was already seen. -/
theorem pa_filter {k : String} (hk : k ≠ "") :
    ∀ (l : List Article) (seen : List String),
      (processArticles seen l).1.filter (fun a => decide (dedupeKey a = k)) =
        if k ∈ seen then []
        else (l.filter (fun a => decide (dedupeKey a = k))).take 1
  | [], seen => by
    simp only [processArticles, List.filter_nil, List.take_nil]
    split <;> rfl
  | a :: rest, seen => by
    by_cases hcond : dedupeKey a ≠ "" ∧ dedupeKey a ∉ seen
    · rw [processArticles, if_pos hcond]
      by_cases hak : dedupeKey a = k
      · have hkseen : k ∉ seen := hak ▸ hcond.2
        rw [List.filter_cons_of_pos (by simp [hak]),
          pa_filter hk rest (dedupeKey a :: seen),
          if_pos (by simp [hak]), if_neg hkseen,
          List.filter_cons_of_pos (by simp [hak])]
        rfl
      · rw [List.filter_cons_of_neg (by simp [hak]),
          pa_filter hk rest (dedupeKey a :: seen)]
        by_cases hks : k ∈ seen
        · rw [if_pos (List.mem_cons_of_mem _ hks), if_pos hks]
        · rw [if_neg ?_, if_neg hks, List.filter_cons_of_neg (by simp [hak])]
          intro hmem
          rcases List.mem_cons.mp hmem with h | h
          · exact hak h.symm
          · exact hks h
    · rw [processArticles, if_neg hcond]
      by_cases hak : dedupeKey a = k
      · have hkseen : k ∈ seen := by
          rcases not_and_or.mp hcond with h | h
          · exact absurd (hak ▸ not_not.mp h) hk
          · exact hak ▸ not_not.mp h
        rw [pa_filter hk rest seen, if_pos hkseen, if_pos hkseen]
      · rw [pa_filter hk rest seen, List.filter_cons_of_neg (by simp [hak])]

theorem find?_mem_take_one {p : Article → Bool} {a : Article} :
    ∀ {l : List Article}, l.find? p = some a → a ∈ (l.filter p).take 1
  | [], h => by simp at h
  | x :: xs, h => by
    by_cases hp : p x = true
    · rw [List.find?_cons_of_pos _ hp] at h
      cases h
      rw [List.filter_cons_of_pos hp]
      simp
    · rw [List.find?_cons_of_neg _ (by simpa using hp)] at h
      rw [List.filter_cons_of_neg (by simpa using hp)]
      exact find?_mem_take_one h

/-- The last published accumulation is, up to order, the first-seen-wins
deduplication of the concatenated input stream. -/
theorem loadFeedsGo_perm :
    ∀ (batches : List (List Article)) (all : List Article) (seen : List String),
      ((loadFeedsGo all seen batches).getLastD all).Perm
        (all ++ (processArticles seen batches.flatten).1)
  | [], all, seen => by simp [loadFeedsGo, processArticles]
  | b :: rest, all, seen => by
    simp only [loadFeedsGo, loadFeedsStep, List.getLastD_cons]
    refine (loadFeedsGo_perm rest _ _).trans ?_
    have hsort := jsSort_perm pubDateGt (all ++ (processArticles seen b).1)
    refine (hsort.append_right _).trans ?_
    rw [List.flatten_cons, pa_append b rest.flatten seen, List.append_assoc]

theorem loadFeedsFinal_perm (batches : List (List Article)) :
    (loadFeedsFinal batches).Perm (processArticles [] batches.flatten).1 := by
  have h := loadFeedsGo_perm batches [] []
  simpa [loadFeedsFinal, loadFeedsSnapshots] using h

/-- Every article in any published snapshot has a non-empty dedupe key. -/
theorem snapshots_key_ne :
    ∀ (batches : List (List Article)) (all : List Article) (seen : List String),
      (∀ x ∈ all, dedupeKey x ≠ "") →
      ∀ snap ∈ loadFeedsGo all seen batches, ∀ x ∈ snap, dedupeKey x ≠ ""
  | [], _, _, _, snap, hsnap => by simp [loadFeedsGo] at hsnap
  | b :: rest, all, seen, hall, snap, hsnap => by
    have hall' : ∀ x ∈ jsSort pubDateGt (all ++ (processArticles seen b).1),
        dedupeKey x ≠ "" := by
      intro x hx
      rcases List.mem_append.mp (mem_jsSort.mp hx) with h | h
      · exact hall x h
      · exact (pa_mem b seen x h).2
    simp only [loadFeedsGo, loadFeedsStep] at hsnap
    rcases List.mem_cons.mp hsnap with rfl | h
    · exact hall'
    · exact snapshots_key_ne rest _ _ hall' snap h

/-- Elements of any published snapshot come from the input batches. -/
theorem snapshots_mem :
    ∀ (batches : List (List Article)) (all : List Article) (seen : List String)
      (Q : Article → Prop), (∀ x ∈ all, Q x) →
      (∀ b ∈ batches, ∀ x ∈ b, Q x) →
      ∀ snap ∈ loadFeedsGo all seen batches, ∀ x ∈ snap, Q x
  | [], _, _, _, _, _, snap, hsnap => by simp [loadFeedsGo] at hsnap
  | b :: rest, all, seen, Q, hall, hbat, snap, hsnap => by
    have hall' : ∀ x ∈ jsSort pubDateGt (all ++ (processArticles seen b).1), Q x := by
      intro x hx
      rcases List.mem_append.mp (mem_jsSort.mp hx) with h | h
      · exact hall x h
      · exact hbat b (by simp) x (pa_mem b seen x h).1
    simp only [loadFeedsGo, loadFeedsStep] at hsnap
    rcases List.mem_cons.mp hsnap with rfl | h
    · exact hall'
    · exact snapshots_mem rest _ _ Q hall'
        (fun b' hb' => hbat b' (by simp [hb'])) snap h

/-- Claim C10: an article whose link is empty or unparseable and whose title
trims to the empty string has the empty dedupe key, which the merge never
admits — the article appears in no published snapshot, even with no duplicate
present. -/
theorem claim_C10 (batches : List (List Article)) (a : Article)
    (hlink : urlNormalize a.link = none) (htitle : jsTrim a.title = "") :
    dedupeKey a = "" ∧ ∀ snap ∈ loadFeedsSnapshots batches, a ∉ snap := by
  have hkey : dedupeKey a = "" := by
    rw [dedupeKey, hlink, htitle]
    rfl
  refine ⟨hkey, fun snap hsnap hmem => ?_⟩
  exact snapshots_key_ne batches [] [] (by simp) snap hsnap a hmem hkey

theorem claim_C10_witness :
    dedupeKey (mkArticle "   " "" "" "") = "" ∧
    ∀ snap ∈ loadFeedsSnapshots
      [[mkArticle "   " "" "" "", mkArticle "Good" "https://ok.example/a" "" ""]],
      mkArticle "   " "" "" "" ∉ snap :=
  claim_C10 _ _ (by decide) (by decide)

/-- Claim C4 counterexample: two articles with equal (empty) dedupe keys —
empty links, titles trimming to the empty string — do not leave exactly the
first-seen one in the merged set: both are discarded. -/
theorem claim_C4_cex :
    dedupeKey (mkArticle "" "" "" "") = dedupeKey (mkArticle "" "" "p" "") ∧
    loadFeedsFinal [[mkArticle "" "" "" "", mkArticle "" "" "p" ""]] = [] := by
  refine ⟨by decide, by decide⟩

/-- Claim C4 (amended): the dedupe key is the tracked-parameter-stripped,
trailing-slash-free normalised link, or the lowercased trimmed title when the
link is absent or unparseable; for any two articles with equal **non-empty**
keys, in any order across feeds and batches, exactly the first-seen one
survives the merge (articles with the empty key are discarded entirely —
claim C10). -/
theorem claim_C4 (batches : List (List Article)) (k : String) (hk : k ≠ "") :
    (∀ a u, urlNormalize a.link = some u → dedupeKey a = u) ∧
    (∀ a, urlNormalize a.link = none →
      dedupeKey a = jsToLower (jsTrim a.title)) ∧
    (loadFeedsFinal batches).countP (fun a => decide (dedupeKey a = k)) ≤ 1 ∧
    (1 ≤ (batches.flatten).countP (fun a => decide (dedupeKey a = k)) →
      (loadFeedsFinal batches).countP (fun a => decide (dedupeKey a = k)) = 1) ∧
    (∀ a, (batches.flatten).find? (fun x => decide (dedupeKey x = k)) = some a →
      a ∈ loadFeedsFinal batches) := by
  have hfilter := pa_filter hk batches.flatten []
  rw [if_neg (by simp)] at hfilter
  have hcount : (loadFeedsFinal batches).countP (fun a => decide (dedupeKey a = k)) =
      (((batches.flatten).filter (fun a => decide (dedupeKey a = k))).take 1).length := by
    rw [(loadFeedsFinal_perm batches).countP_eq,
      List.countP_eq_length_filter, hfilter]
  refine ⟨?_, ?_, ?_, ?_, ?_⟩
  · intro a u h
    rw [dedupeKey, h]
  · intro a h
    rw [dedupeKey, h]
  · rw [hcount]
    exact List.length_take_le 1 _
  · intro hone
    rw [List.countP_eq_length_filter] at hone
    rw [hcount, List.length_take, Nat.min_def]
    split <;> omega
  · intro a hfind
    have hmem := find?_mem_take_one hfind
    rw [← hfilter] at hmem
    have hmem2 : a ∈ (processArticles [] batches.flatten).1 :=
      List.mem_of_mem_filter hmem
    exact (loadFeedsFinal_perm batches).mem_iff.mpr hmem2

theorem claim_C4_witness :
    (loadFeedsFinal
        [[mkArticle "Budget 2024" "https://site.example/a?utm_source=x" "" "",
          mkArticle "Other" "https://site.example/a/" "" ""],
         [mkArticle "Hello World" "" "" "",
          mkArticle "  hello WORLD " "" "" ""]]).countP
        (fun a => decide (dedupeKey a = "https://site.example/a")) = 1 ∧
    (loadFeedsFinal
        [[mkArticle "Budget 2024" "https://site.example/a?utm_source=x" "" "",
          mkArticle "Other" "https://site.example/a/" "" ""],
         [mkArticle "Hello World" "" "" "",
          mkArticle "  hello WORLD " "" "" ""]]).countP
        (fun a => decide (dedupeKey a = "hello world")) = 1 := by
  constructor
  · exact (claim_C4 _ "https://site.example/a" (by decide)).2.2.2.1 (by decide)
  · exact (claim_C4 _ "hello world" (by decide)).2.2.2.1 (by decide)

/-- Claim C3 counterexample: both articles are produced by `fetchFeed`'s item
map, yet the published snapshot `[B, A]` is not descending by `isoDate` — the
sort comparator re-parses `pubDate`, and `A`'s empty `pubDate` yields `NaN`,
which `SortCompare` coerces to `0`, leaving the newer-`isoDate` article `A`
behind the older `B`. -/
theorem claim_C3_cex :
    mapRawItem feed1 tNow { mkRawItem with title := "A", pubDate := "" } =
      some cexArtA ∧
    mapRawItem feed1 tNow
      { mkRawItem with title := "B", pubDate := "2024-01-01T10:00:00.000Z" } =
      some cexArtB ∧
    loadFeedsSnapshots [[cexArtB, cexArtA]] = [[cexArtB, cexArtA]] ∧
    ¬ publishedSortedDesc [cexArtB, cexArtA] := by
  refine ⟨by decide, by decide, by decide, ?_⟩
  simp only [publishedSortedDesc, List.chain'_cons, List.chain'_singleton, and_true]
  decide

/-- Claim C3 (amended): each published accumulation is sorted descending by the
re-parsed `pubDate`; when every ingested article's `pubDate` parses — and its
`isoDate` denotes the same instant, as the item map guarantees for parsed
dates — every published snapshot is sorted descending by `isoDate`.  An
article with an empty or unparsable `pubDate` (whose `isoDate` is the
fetch-time "now") is left where it stands by the `NaN`-coerced comparator, so
for it no `isoDate` order is guaranteed. -/
theorem claim_C3 (batches : List (List Article))
    (h : ∀ b ∈ batches, ∀ a ∈ b, (jsDateParse a.pubDate).isSome = true ∧
      jsDateParse a.isoDate = jsDateParse a.pubDate) :
    ∀ snap ∈ loadFeedsSnapshots batches, publishedSortedDesc snap := by
  set P : Article → Prop := fun a => (jsDateParse a.pubDate).isSome = true ∧
    jsDateParse a.isoDate = jsDateParse a.pubDate with hP
  set k : Article → Int := fun a => (jsDateParse a.pubDate).getD 0 with hk
  have hgt : ∀ p q : Article, P p → P q → (pubDateGt p q = true ↔ k p < k q) := by
    intro p q hp hq
    rcases Option.isSome_iff_exists.mp hp.1 with ⟨tp, htp⟩
    rcases Option.isSome_iff_exists.mp hq.1 with ⟨tq, htq⟩
    rw [pubDateGt, htp, htq]
    simp [hk, htp, htq]
  suffices hgo : ∀ (batches : List (List Article)) (all : List Article)
      (seen : List String), (∀ x ∈ all, P x) →
      (∀ b ∈ batches, ∀ a ∈ b, P a) →
      ∀ snap ∈ loadFeedsGo all seen batches, publishedSortedDesc snap by
    exact hgo batches [] [] (by simp) h
  intro batches
  induction batches with
  | nil =>
    intro all seen _ _ snap hsnap
    simp [loadFeedsGo] at hsnap
  | cons b rest ih =>
    intro all seen hall hbat snap hsnap
    have hall' : ∀ x ∈ jsSort pubDateGt (all ++ (processArticles seen b).1), P x := by
      intro x hx
      rcases List.mem_append.mp (mem_jsSort.mp hx) with hx' | hx'
      · exact hall x hx'
      · exact hbat b (by simp) x (pa_mem b seen x hx').1
    simp only [loadFeedsGo, loadFeedsStep] at hsnap
    rcases List.mem_cons.mp hsnap with rfl | hsnap'
    · have hchain := jsSort_chain hgt (all ++ (processArticles seen b).1)
        (fun x hx => hall' x (mem_jsSort.mpr hx))
      refine chain'_mono_mem (fun p hp q hq hpq => ?_) hchain
      rcases Option.isSome_iff_exists.mp (hall' p hp).1 with ⟨tp, htp⟩
      rcases Option.isSome_iff_exists.mp (hall' q hq).1 with ⟨tq, htq⟩
      have hip := (hall' p hp).2
      have hiq := (hall' q hq).2
      rw [isoGEb, hip, hiq, htp, htq]
      simp only [hk, htp, htq, Option.getD_some] at hpq
      simpa using hpq
    · exact ih _ _ hall' (fun b' hb' => hbat b' (by simp [hb'])) snap hsnap'

theorem claim_C3_witness :
    (∀ b ∈ [[cexArtB,
        mkArticle "A" "" "2025-10-09T08:53:20.123Z" "2025-10-09T08:53:20.123Z"]],
      ∀ a ∈ b, (jsDateParse a.pubDate).isSome = true ∧
        jsDateParse a.isoDate = jsDateParse a.pubDate) ∧
    ∀ snap ∈ loadFeedsSnapshots [[cexArtB,
        mkArticle "A" "" "2025-10-09T08:53:20.123Z" "2025-10-09T08:53:20.123Z"]],
      publishedSortedDesc snap :=
  ⟨by decide, claim_C3 _ (by decide)⟩

/-- Claim C8: the recent-trend computation is the keyword-trend algorithm on
exactly the articles passing the one-hour window filter, and an article with a
parsed `isoDate` is kept iff that time is at least `now` minus one hour — so
`now − 61min` is excluded and `now − 59min` is included (witness). -/
theorem claim_C8 (now : Int) (arts : List Article) (a : Article) (t : Int)
    (hp : jsDateParse a.isoDate = some t) :
    recentTrendTopics now arts = calculateTrends (recentArticles now arts) ∧
    (a ∈ recentArticles now arts ↔ a ∈ arts ∧ now - 3600000 ≤ t) := by
  refine ⟨rfl, ?_⟩
  have hne : a.isoDate ≠ "" := by
    intro h0
    rw [h0, show jsDateParse "" = none from rfl] at hp
    cases hp
  have hkeep : recentKeep now a = decide (now - 3600000 ≤ t) := by
    rw [recentKeep, if_pos hne, hp]
  rw [recentArticles, List.mem_filter, hkeep]
  simp

theorem claim_C8_witness :
    mkArticle "Old" "" "" "2025-10-09T07:52:20.000Z" ∉
      recentArticles 1760000000000
        [mkArticle "Old" "" "" "2025-10-09T07:52:20.000Z",
         mkArticle "New" "" "" "2025-10-09T07:54:20.000Z"] ∧
    mkArticle "New" "" "" "2025-10-09T07:54:20.000Z" ∈
      recentArticles 1760000000000
        [mkArticle "Old" "" "" "2025-10-09T07:52:20.000Z",
         mkArticle "New" "" "" "2025-10-09T07:54:20.000Z"] := by
  constructor
  · intro hmem
    have h := (claim_C8 1760000000000
      [mkArticle "Old" "" "" "2025-10-09T07:52:20.000Z",
       mkArticle "New" "" "" "2025-10-09T07:54:20.000Z"]
      (mkArticle "Old" "" "" "2025-10-09T07:52:20.000Z")
      1759996340000 (by decide)).2.mp hmem
    exact absurd h.2 (by decide)
  · exact (claim_C8 1760000000000
      [mkArticle "Old" "" "" "2025-10-09T07:52:20.000Z",
       mkArticle "New" "" "" "2025-10-09T07:54:20.000Z"]
      (mkArticle "New" "" "" "2025-10-09T07:54:20.000Z")
      1759996460000 (by decide)).2.mpr ⟨by simp, by decide⟩

/-- Claim C9: over a two-article corpus sorted descending by `isoDate`, with
the newer article `A` an eligible seed (at least 3 significant title tokens)
and `B` distinct, the two are merged into one cluster exactly when their
significant title-token sets share at least 2 tokens — sharing fewer (e.g.
only 1) yields no cluster at all. -/
theorem claim_C9 (A B : Article) (tA tB : Int)
    (hid : A.id ≠ B.id)
    (hA : jsDateParse A.isoDate = some tA) (hB : jsDateParse B.isoDate = some tB)
    (hlt : tB < tA)
    (hseed : 3 ≤ (getTokens A.title).length) :
    (2 ≤ intersectCount (getTokens A.title) (getTokens B.title) →
      trendingClusters [B, A] = [([A, B], getTokens A.title)]) ∧
    (intersectCount (getTokens A.title) (getTokens B.title) < 2 →
      trendingClusters [B, A] = []) := by
  have hgtBA : isoDateGt B A = true := by
    rw [isoDateGt, hA, hB]
    simpa using hlt
  have hsorted : sortByIsoDesc [B, A] = [A, B] := by
    simp [sortByIsoDesc, jsSort, insRev, hgtBA]
  have hne : ¬ B.id = A.id := Ne.symm hid
  have hseed' : ¬ (getTokens A.title).length < 3 := by omega
  constructor
  · intro hI
    have hI' : 2 ≤ intersectCount (getTokens A.title) (getTokens B.title) := hI
    rw [trendingClusters, hsorted]
    simp [buildClusters, scanCluster, List.contains, hid, hne, hseed', hI']
  · intro hI
    have hI' : ¬ 2 ≤ intersectCount (getTokens A.title) (getTokens B.title) := by
      omega
    rw [trendingClusters, hsorted]
    by_cases hBseed : (getTokens B.title).length < 3
    · simp [buildClusters, scanCluster, List.contains, hid, hne, hseed', hI', hBseed]
    · simp [buildClusters, scanCluster, List.contains, hid, hne, hseed', hI', hBseed]

theorem claim_C9_witness :
    (2 ≤ intersectCount (getTokens "Mumbai Flood Rescue Operations")
        (getTokens "Mumbai Flood Alert") ∧
      trendingClusters
        [mkArticle "Mumbai Flood Alert" "https://b.example/2" ""
          "2025-10-09T07:00:00.000Z",
         { mkArticle "Mumbai Flood Rescue Operations" "https://a.example/1" ""
            "2025-10-09T08:00:00.000Z" with id := "a1" }] =
        [([{ mkArticle "Mumbai Flood Rescue Operations" "https://a.example/1" ""
              "2025-10-09T08:00:00.000Z" with id := "a1" },
            mkArticle "Mumbai Flood Alert" "https://b.example/2" ""
              "2025-10-09T07:00:00.000Z"],
          getTokens "Mumbai Flood Rescue Operations")]) ∧
    (intersectCount (getTokens "Mumbai Flood Rescue Operations")
        (getTokens "Cricket Flood Update") < 2 ∧
      trendingClusters
        [mkArticle "Cricket Flood Update" "https://b.example/2" ""
          "2025-10-09T07:00:00.000Z",
         { mkArticle "Mumbai Flood Rescue Operations" "https://a.example/1" ""
            "2025-10-09T08:00:00.000Z" with id := "a1" }] = []) := by
  constructor
  · exact ⟨by decide, (claim_C9 _ _ 1759996800000 1759993200000 (by decide)
      (by decide) (by decide) (by decide) (by decide)).1 (by decide)⟩
  · exact ⟨by decide, (claim_C9 _ _ 1759996800000 1759993200000 (by decide)
      (by decide) (by decide) (by decide) (by decide)).2 (by decide)⟩

/-! ## Helper lemmas: the keyword-trend table -/

theorem dedupFirstGo_mem : ∀ (l seen : List String) (x : String),
    x ∈ dedupFirstGo seen l ↔ x ∈ l ∧ x ∉ seen
  | [], seen, x => by simp [dedupFirstGo]
  | y :: ys, seen, x => by
    by_cases hy : y ∈ seen
    · rw [dedupFirstGo, if_pos hy, dedupFirstGo_mem ys seen x]
      constructor
      · exact fun h => ⟨by simp [h.1], h.2⟩
      · rintro ⟨hmem, hns⟩
        rcases List.mem_cons.mp hmem with rfl | h
        · exact absurd hy hns
        · exact ⟨h, hns⟩
    · rw [dedupFirstGo, if_neg hy]
      constructor
      · intro h
        rcases List.mem_cons.mp h with rfl | h'
        · exact ⟨by simp, hy⟩
        · have := (dedupFirstGo_mem ys (y :: seen) x).mp h'
          exact ⟨by simp [this.1], fun hs => this.2 (by simp [hs])⟩
      · rintro ⟨hmem, hns⟩
        rcases List.mem_cons.mp hmem with rfl | h'
        · simp
        · by_cases hxy : x = y
          · simp [hxy]
          · exact List.mem_cons_of_mem _
              ((dedupFirstGo_mem ys (y :: seen) x).mpr
                ⟨h', by simp [hxy, hns]⟩)

theorem dedupFirstGo_nodup : ∀ (l seen : List String),
    (dedupFirstGo seen l).Nodup
  | [], _ => List.nodup_nil
  | y :: ys, seen => by
    by_cases hy : y ∈ seen
    · rw [dedupFirstGo, if_pos hy]
      exact dedupFirstGo_nodup ys seen
    · rw [dedupFirstGo, if_neg hy]
      refine List.nodup_cons.mpr ⟨fun hmem => ?_, dedupFirstGo_nodup ys (y :: seen)⟩
      exact ((dedupFirstGo_mem ys (y :: seen) y).mp hmem).2 (by simp)

theorem articleTokens_nodup (a : Article) : (articleTokens a).Nodup :=
  dedupFirstGo_nodup _ []

/-- A bump of a key a cons'd entry does not carry commutes with the cons. -/
theorem bump_cons_ne (e : String × Nat × List Article)
    (rest : List (String × Nat × List Article)) (tok : String) (a : Article)
    (he : ¬ e.1 = tok) :
    bumpToken (e :: rest) tok a = e :: bumpToken rest tok a := by
  rw [bumpToken, bumpToken, List.any_cons]
  by_cases han : rest.any (fun x => decide (x.1 = tok)) = true
  · rw [if_pos (by simp [han]), if_pos han, List.map_cons, if_neg he]
  · rw [if_neg (by simp [he, han]), if_neg han, List.cons_append]

theorem tableCount_nil (tok : String) : tableCount [] tok = 0 := rfl

theorem tableCount_cons_eq (e : String × Nat × List Article)
    (rest : List (String × Nat × List Article)) {tok : String} (hh : e.1 = tok) :
    tableCount (e :: rest) tok = e.2.1 := by
  rw [tableCount, List.find?_cons_of_pos _ (by simp [hh])]

theorem tableCount_cons_ne (e : String × Nat × List Article)
    (rest : List (String × Nat × List Article)) {tok : String} (hh : ¬ e.1 = tok) :
    tableCount (e :: rest) tok = tableCount rest tok := by
  rw [tableCount, List.find?_cons_of_neg _ (by simp [hh])]
  rfl

theorem tableCount_map_update
    (rest : List (String × Nat × List Article)) (tok tok' : String) (a : Article)
    (hne : ¬ tok' = tok) :
    tableCount (rest.map fun e =>
      if e.1 = tok then (e.1, e.2.1 + 1, e.2.2 ++ [a]) else e) tok' =
      tableCount rest tok' := by
  induction rest with
  | nil => rfl
  | cons e rest ih =>
    rw [List.map_cons]
    by_cases he : e.1 = tok
    · have hne1 : ¬ e.1 = tok' := fun hx => hne (hx ▸ he ▸ rfl)
      rw [if_pos he, tableCount_cons_ne _ _ (by simpa using hne1),
        tableCount_cons_ne _ _ hne1]
      exact ih
    · rw [if_neg he]
      by_cases hh : e.1 = tok'
      · rw [tableCount_cons_eq _ _ hh, tableCount_cons_eq _ _ hh]
      · rw [tableCount_cons_ne _ _ hh, tableCount_cons_ne _ _ hh]
        exact ih

theorem tableCount_bump (tbl : List (String × Nat × List Article))
    (tok tok' : String) (a : Article) :
    tableCount (bumpToken tbl tok a) tok' =
      if tok' = tok then tableCount tbl tok' + 1 else tableCount tbl tok' := by
  induction tbl with
  | nil =>
    rw [bumpToken, if_neg (by simp)]
    by_cases h : tok' = tok
    · rw [if_pos h, List.nil_append, tableCount_cons_eq _ _ h.symm]
      rfl
    · rw [if_neg h, List.nil_append,
        tableCount_cons_ne _ _ (fun hx => h hx.symm)]
  | cons e rest ih =>
    by_cases he : e.1 = tok
    · rw [bumpToken, if_pos (by simp [List.any_cons, he]), List.map_cons, if_pos he]
      by_cases h : tok' = tok
      · rw [if_pos h,
          tableCount_cons_eq (e.1, e.2.1 + 1, e.2.2 ++ [a]) _ (h ▸ he : e.1 = tok'),
          tableCount_cons_eq e _ (h ▸ he : e.1 = tok')]
      · have hne1 : ¬ e.1 = tok' := fun hx => h (hx ▸ he ▸ rfl)
        rw [if_neg h,
          tableCount_cons_ne (e.1, e.2.1 + 1, e.2.2 ++ [a]) _ hne1,
          tableCount_cons_ne e _ hne1]
        exact tableCount_map_update rest tok tok' a h
    · rw [bump_cons_ne e rest tok a he]
      by_cases hh : e.1 = tok'
      · rw [tableCount_cons_eq _ _ hh,
          if_neg (fun hx => he (hh.trans hx)), tableCount_cons_eq _ _ hh]
      · rw [tableCount_cons_ne _ _ hh, ih, tableCount_cons_ne _ _ hh]

/-- One article's token fold bumps a valid token exactly once iff the article
contains it. -/
theorem foldTokens_count : ∀ (ts : List String), ts.Nodup →
    ∀ (tbl : List (String × Nat × List Article)) (a : Article) (tok : String),
    tableCount (ts.foldl
      (fun tbl t => if validToken t = true then bumpToken tbl t a else tbl) tbl) tok =
      tableCount tbl tok +
        (if validToken tok = true ∧ tok ∈ ts then 1 else 0)
  | [], _, tbl, a, tok => by simp
  | t :: rest, hnd, tbl, a, tok => by
    have hnd' := List.nodup_cons.mp hnd
    rw [List.foldl_cons,
      foldTokens_count rest hnd'.2 _ a tok]
    by_cases htok : tok = t
    · subst htok
      by_cases hv : validToken tok = true
      · rw [if_pos hv, tableCount_bump, if_pos rfl,
          if_neg (fun hc => hnd'.1 hc.2), if_pos ⟨hv, by simp⟩]
      · rw [if_neg hv, if_neg (fun hc => hv hc.1), if_neg (fun hc => hv hc.1)]
    · have hstep : tableCount
          (if validToken t = true then bumpToken tbl t a else tbl) tok =
          tableCount tbl tok := by
        by_cases hv : validToken t = true
        · rw [if_pos hv, tableCount_bump, if_neg htok]
        · rw [if_neg hv]
      rw [hstep]
      by_cases hmem : validToken tok = true ∧ tok ∈ rest
      · rw [if_pos hmem, if_pos ⟨hmem.1, by simp [hmem.2]⟩]
      · rw [if_neg hmem, if_neg (by
          rintro ⟨h1, h2⟩
          rcases List.mem_cons.mp h2 with h3 | h3
          · exact htok h3
          · exact hmem ⟨h1, h3⟩)]

theorem wordsTable_count (arts : List Article) (tok : String) :
    tableCount (wordsTable arts) tok =
      if validToken tok = true then
        (arts.filter fun a => decide (tok ∈ articleTokens a)).length
      else 0 := by
  suffices h : ∀ (l : List Article) (tbl : List (String × Nat × List Article)),
      tableCount (l.foldl addArticleTokens tbl) tok =
        tableCount tbl tok +
          (if validToken tok = true then
            (l.filter fun a => decide (tok ∈ articleTokens a)).length
          else 0) by
    have := h arts []
    rw [wordsTable, this]
    simp [tableCount, List.find?]
  intro l
  induction l with
  | nil => intro tbl; simp
  | cons a rest ih =>
    intro tbl
    rw [List.foldl_cons, ih, addArticleTokens,
      foldTokens_count (articleTokens a) (articleTokens_nodup a) tbl a tok]
    by_cases hv : validToken tok = true
    · by_cases hmem : tok ∈ articleTokens a
      · rw [if_pos ⟨hv, hmem⟩, if_pos hv, if_pos hv,
          List.filter_cons_of_pos (by simp [hmem])]
        rw [List.length_cons]
        omega
      · rw [if_neg (fun hc => hmem hc.2), if_pos hv, if_pos hv,
          List.filter_cons_of_neg (by simp [hmem])]
        omega
    · rw [if_neg (by simp [hv]), if_neg hv, if_neg hv]

theorem bump_keys (tbl : List (String × Nat × List Article)) (tok : String)
    (a : Article) :
    (bumpToken tbl tok a).map (·.1) =
      if tbl.any (fun e => decide (e.1 = tok)) = true then tbl.map (·.1)
      else tbl.map (·.1) ++ [tok] := by
  rw [bumpToken]
  split
  · rw [List.map_map]
    refine List.map_congr_left ?_
    intro e _
    simp only [Function.comp_apply]
    split <;> rfl
  · simp

/-- Every table entry built by the trend fold carries a valid token as its
key, and the keys are pairwise distinct. -/
theorem bump_inv (tbl : List (String × Nat × List Article)) (tok : String)
    (a : Article) (hv : validToken tok = true)
    (h1 : ∀ e ∈ tbl, validToken e.1 = true)
    (h2 : ((tbl.map (·.1)).Nodup)) :
    (∀ e ∈ bumpToken tbl tok a, validToken e.1 = true) ∧
      ((bumpToken tbl tok a).map (·.1)).Nodup := by
  constructor
  · intro e he
    rw [bumpToken] at he
    split at he
    · rcases List.mem_map.mp he with ⟨e', he', rfl⟩
      have hsame : (if e'.1 = tok then (e'.1, e'.2.1 + 1, e'.2.2 ++ [a])
          else e').1 = e'.1 := by
        split <;> rfl
      rw [hsame]
      exact h1 e' he'
    · rcases List.mem_append.mp he with h | h
      · exact h1 e h
      · rcases List.mem_singleton.mp h with rfl
        exact hv
  · rw [bump_keys]
    split
    · exact h2
    · rename_i hany
      rw [List.nodup_append]
      refine ⟨h2, List.nodup_singleton _, ?_⟩
      intro x hx hx'
      have hxtok : x = tok := List.mem_singleton.mp hx'
      rcases List.mem_map.mp hx with ⟨e, he, hfst⟩
      apply hany
      refine List.any_eq_true.mpr ⟨e, he, ?_⟩
      have : e.1 = tok := by rw [show e.1 = x from hfst, hxtok]
      simp [this]

theorem foldTokens_inv (ts : List String)
    (a : Article) :
    ∀ (tbl : List (String × Nat × List Article)),
    (∀ e ∈ tbl, validToken e.1 = true) → ((tbl.map (·.1)).Nodup) →
    (∀ e ∈ ts.foldl
      (fun tbl t => if validToken t = true then bumpToken tbl t a else tbl) tbl,
        validToken e.1 = true) ∧
      ((ts.foldl
        (fun tbl t => if validToken t = true then bumpToken tbl t a else tbl)
          tbl).map (·.1)).Nodup := by
  induction ts with
  | nil => intro tbl h1 h2; exact ⟨h1, h2⟩
  | cons t rest ih =>
    intro tbl h1 h2
    rw [List.foldl_cons]
    by_cases hv : validToken t = true
    · rw [if_pos hv]
      have := bump_inv tbl t a hv h1 h2
      exact ih _ this.1 this.2
    · rw [if_neg hv]
      exact ih _ h1 h2

theorem wordsTable_inv (arts : List Article) :
    (∀ e ∈ wordsTable arts, validToken e.1 = true) ∧
      ((wordsTable arts).map (·.1)).Nodup := by
  suffices h : ∀ (l : List Article) (tbl : List (String × Nat × List Article)),
      (∀ e ∈ tbl, validToken e.1 = true) → ((tbl.map (·.1)).Nodup) →
      (∀ e ∈ l.foldl addArticleTokens tbl, validToken e.1 = true) ∧
        (((l.foldl addArticleTokens tbl).map (·.1)).Nodup) by
    exact h arts [] (by simp) (by simp)
  intro l
  induction l with
  | nil => intro tbl h1 h2; exact ⟨h1, h2⟩
  | cons a rest ih =>
    intro tbl h1 h2
    rw [List.foldl_cons, addArticleTokens]
    have := foldTokens_inv (articleTokens a) a tbl h1 h2
    exact ih _ this.1 this.2

theorem tableCount_of_mem :
    ∀ (tbl : List (String × Nat × List Article)),
      ((tbl.map (·.1)).Nodup) → ∀ e ∈ tbl, tableCount tbl e.1 = e.2.1
  | [], _, e, he => by cases he
  | x :: rest, hnd, e, he => by
    rw [List.map_cons, List.nodup_cons] at hnd
    rcases List.mem_cons.mp he with rfl | he'
    · exact tableCount_cons_eq _ _ rfl
    · have hx : ¬ x.1 = e.1 := by
        intro hx
        exact hnd.1 (hx ▸ List.mem_map.mpr ⟨e, he', rfl⟩)
      rw [tableCount_cons_ne _ _ hx]
      exact tableCount_of_mem rest hnd.2 e he'

/-- Claim C7: every returned trend topic is a valid token (length over 2, not
a stop word, not numeric under JS `Number` coercion) whose count is the number
of (distinct, by the `Nodup` hypothesis) articles whose lowercased
title-plus-snippet token set contains it — one per article however often it
repeats inside; at most 30 topics are returned, ranked by count descending. -/
theorem claim_C7 (arts : List Article) (_hnd : arts.Nodup) :
    (∀ topic ∈ calculateTrends arts, ∃ tok, validToken tok = true ∧
      topic.keyword = capitalize tok ∧
      topic.count = (arts.filter fun a => decide (tok ∈ articleTokens a)).length) ∧
    (calculateTrends arts).length ≤ 30 ∧
    List.Chain' (fun p q : TrendTopic => q.count ≤ p.count)
      (calculateTrends arts) := by
  have hinv := wordsTable_inv arts
  refine ⟨?_, ?_, ?_⟩
  · intro topic htopic
    have h1 : topic ∈ jsSort countGt ((wordsTable arts).map fun e =>
        { keyword := capitalize e.1, count := e.2.1,
          relatedArticles := e.2.2 : TrendTopic }) :=
      List.mem_of_mem_take htopic
    rcases List.mem_map.mp (mem_jsSort.mp h1) with ⟨e, he, rfl⟩
    refine ⟨e.1, hinv.1 e he, rfl, ?_⟩
    have hc := tableCount_of_mem (wordsTable arts) hinv.2 e he
    have hw := wordsTable_count arts e.1
    rw [if_pos (hinv.1 e he)] at hw
    exact hc.symm.trans hw
  · exact List.length_take_le 30 _
  · have hgt : ∀ p q : TrendTopic, True → True →
        (countGt p q = true ↔ ((p.count : Int) < (q.count : Int))) := by
      intro p q _ _
      rw [countGt]
      simp
    have hchain := jsSort_chain hgt ((wordsTable arts).map fun e =>
      { keyword := capitalize e.1, count := e.2.1,
        relatedArticles := e.2.2 : TrendTopic }) (fun _ _ => trivial)
    have htake := hchain.take 30
    refine chain'_mono_mem (fun p _ q _ hpq => ?_) htake
    exact_mod_cast hpq

theorem claim_C7_witness :
    ([mkArticle "Election News" "" "" "",
      mkArticle "Election Results" "https://x.example/r" "" ""].Nodup) ∧
    (calculateTrends [mkArticle "Election News" "" "" "",
      mkArticle "Election Results" "https://x.example/r" "" ""]).length ≤ 30 :=
  ⟨by decide, (claim_C7 _ (by decide)).2.1⟩

end Pulse
